import Mathlib

/-!
Verification development for the graph-analysis engine of the
dark-visualization repository (source: `src/data_analyser.py`).

The Python code builds a `networkx.DiGraph` from two tabular inputs
(events, edges) and writes a textual report.  We embed the data model and
the operations shallowly:

* a pandas event/edge row becomes a Lean structure; a missing (NaN)
  `Source`/`Target` cell becomes `Option.none`;
* `networkx.DiGraph` becomes an association list of nodes (in insertion
  order, each at most once, carrying an optional attribute record — nodes
  auto-created by `add_edge` carry no attributes) together with an
  association list of edges keyed by the ordered pair (each ordered pair
  at most once: `DiGraph` is not a multigraph, a repeated `add_edge`
  overwrites the attributes);
* the `Date` column starts as a raw string and `pd.to_datetime` replaces
  it in place by a parsed value, which we model with a sum type `DateVal`;
* floating-point centrality arithmetic is modelled exactly over `ℚ`.
-/

namespace DarkViz

/-- The value held in an event's `Date` cell: the raw CSV string as loaded,
or the parsed datetime that `pd.to_datetime` replaces it with. -/
inductive DateVal where
  | raw (s : String)
  | parsed (day month year : Nat)
deriving DecidableEq

/-- One row of `Dark_Events.csv` as loaded (columns used by the code). -/
structure EventRow where
  id : Nat
  description : String
  date : DateVal
  important_trigger : Bool
  death : Bool
  characters : String
  world : String
deriving DecidableEq

/-- One row of `Dark_Edges.csv`; a NaN `Source`/`Target` cell is `none`. -/
structure EdgeRow where
  source : Option Nat
  target : Option Nat
  edge_type : String
  description : String
deriving DecidableEq

/-- The node attributes attached by `create_graph`'s `G.add_node` call. -/
structure NodeAttrs where
  description : String
  date : DateVal
  important_trigger : Bool
  death : Bool
  characters : String
  world : String
deriving DecidableEq

/-- The edge attributes attached by `create_graph`'s `G.add_edge` call. -/
structure EdgeAttrs where
  edge_type : String
  description : String
deriving DecidableEq

/-- Embeds `networkx.DiGraph`: nodes in insertion order (attribute dict empty,
i.e. `none`, for nodes auto-created by `add_edge`), and edges keyed by the
ordered pair, in insertion order, each pair at most once. -/
structure DiGraph where
  nodes : List (Nat × Option NodeAttrs)
  edges : List ((Nat × Nat) × EdgeAttrs)
deriving DecidableEq

/-- The node identifiers of a graph, in insertion order. -/
def DiGraph.nodeIds (G : DiGraph) : List Nat := G.nodes.map Prod.fst

/-- The (source, target) keys of the graph's edges, in insertion order. -/
def DiGraph.edgeKeys (G : DiGraph) : List (Nat × Nat) := G.edges.map Prod.fst

/-- Insertion into a Python dict rendered as an association list: if the
key is present its value is replaced in place, otherwise the pair is
appended (dicts preserve insertion order). -/
def upsertAssoc {α β : Type} [DecidableEq α] (l : List (α × β)) (k : α) (b : β) :
    List (α × β) :=
  match l with
  | [] => [(k, b)]
  | (k2, b2) :: rest =>
    if k2 = k then (k2, b) :: rest else (k2, b2) :: upsertAssoc rest k b

/-- Embeds the node auto-creation of `add_edge`: a missing endpoint is
appended with an empty attribute dict; an existing entry is left
untouched. -/
def ensureNode (ns : List (Nat × Option NodeAttrs)) (v : Nat) :
    List (Nat × Option NodeAttrs) :=
  if v ∈ ns.map Prod.fst then ns else ns ++ [(v, none)]

/-- Embeds `networkx.DiGraph.add_node` with attributes (`create_graph`
always sets all six attributes, so networkx's dict update amounts to a
replacement). -/
def DiGraph.add_node (G : DiGraph) (v : Nat) (a : NodeAttrs) : DiGraph :=
  { G with nodes := upsertAssoc G.nodes v (some a) }

/-- Embeds `networkx.DiGraph.add_edge`: ensures both endpoints exist as nodes
(auto-creating them with no attributes), then inserts or overwrites the
edge keyed by the ordered pair (`DiGraph` is not a multigraph). -/
def DiGraph.add_edge (G : DiGraph) (s t : Nat) (a : EdgeAttrs) : DiGraph :=
  { nodes := ensureNode (ensureNode G.nodes s) t
    edges := upsertAssoc G.edges (s, t) a }

/-- The attribute record `create_graph` attaches to an event's node. -/
def mkNodeAttrs (e : EventRow) : NodeAttrs :=
  ⟨e.description, e.date, e.important_trigger, e.death, e.characters, e.world⟩

/-- The attribute record `create_graph` attaches to an edge. -/
def mkEdgeAttrs (r : EdgeRow) : EdgeAttrs := ⟨r.edge_type, r.description⟩

/-- One iteration of `create_graph`'s node loop:
`G.add_node(event['ID'], ...attributes...)`. -/
def addEventNode (g : DiGraph) (e : EventRow) : DiGraph :=
  g.add_node e.id (mkNodeAttrs e)

/-- One iteration of `create_graph`'s edge loop: the row is used only
`if pd.notna(edge['Source']) and pd.notna(edge['Target'])`; a row with a
NaN endpoint is skipped with no record kept. -/
def addEdgeRow (g : DiGraph) (r : EdgeRow) : DiGraph :=
  match r.source, r.target with
  | some s, some t => g.add_edge s t (mkEdgeAttrs r)
  | _, _ => g

/-- Embeds `create_graph(events_df, edges_df)` from `src/data_analyser.py`:
adds one node per event row with its attributes, then runs the edge loop
over all edge rows. -/
def create_graph (events : List EventRow) (edge_rows : List EdgeRow) : DiGraph :=
  edge_rows.foldl addEdgeRow (events.foldl addEventNode ⟨[], []⟩)

/-- Embeds `G.number_of_nodes()`. -/
def DiGraph.number_of_nodes (G : DiGraph) : Nat := G.nodes.length

/-- Embeds `G.number_of_edges()`. -/
def DiGraph.number_of_edges (G : DiGraph) : Nat := G.edges.length

/-- Embeds `G.out_degree(v)` (a self-loop counts once). -/
def DiGraph.out_degree (G : DiGraph) (v : Nat) : Nat :=
  G.edgeKeys.countP (fun k => k.1 == v)

/-- Embeds `G.in_degree(v)` (a self-loop counts once). -/
def DiGraph.in_degree (G : DiGraph) (v : Nat) : Nat :=
  G.edgeKeys.countP (fun k => k.2 == v)

/-- The dead-end list of `analyze_graph_structure`: nodes with no
outgoing edges, in node order. -/
def dead_ends (G : DiGraph) : List Nat :=
  G.nodeIds.filter (fun v => G.out_degree v == 0)

/-- Embeds `nx.in_degree_centrality`: in-degree divided by `n - 1` (networkx
returns 1 for every node when the graph has at most one node). -/
def in_degree_centrality (G : DiGraph) (v : Nat) : ℚ :=
  if G.number_of_nodes ≤ 1 then 1
  else (G.in_degree v : ℚ) / ((G.number_of_nodes : ℚ) - 1)

/-- All walks of length `k` starting at `s`, as node lists of length
`k + 1`. -/
def walksFrom (G : DiGraph) (k : Nat) (s : Nat) : List (List Nat) :=
  match k with
  | 0 => [[s]]
  | k + 1 =>
    (G.edgeKeys.filter (fun e => e.1 == s)).flatMap
      (fun e => (walksFrom G k e.2).map (fun w => s :: w))

/-- Whether a walk in `walksFrom` ends at `t`. -/
def endsAt (t : Nat) (w : List Nat) : Bool := w.getLast? == some t

/-- Directed distance from `s` to `t`: the least walk length realising
it, `none` when `t` is unreachable from `s` (a shortest walk repeats no
node, so lengths up to `number_of_nodes - 1` suffice). -/
def DiGraph.dist? (G : DiGraph) (s t : Nat) : Option Nat :=
  (List.range G.number_of_nodes).find? (fun k => 0 < (walksFrom G k s).countP (endsAt t))

/-- Embeds `σ_{st}`: the number of shortest directed `s`–`t` paths (a shortest
walk is automatically a simple path); `0` when `t` is unreachable. -/
def sigmaST (G : DiGraph) (s t : Nat) : Nat :=
  match G.dist? s t with
  | none => 0
  | some d => (walksFrom G d s).countP (endsAt t)

/-- Embeds `σ_{st}(v)`: the number of shortest directed `s`–`t` paths that pass
through `v`. -/
def sigmaThrough (G : DiGraph) (s t v : Nat) : Nat :=
  match G.dist? s t with
  | none => 0
  | some d => (walksFrom G d s).countP (fun w => endsAt t w && v ∈ w)

/-- The pair dependency `δ_{st}(v) = σ_{st}(v) / σ_{st}` (zero for an
unreachable pair), the quantity Brandes' algorithm accumulates. -/
def pairDep (G : DiGraph) (s t v : Nat) : ℚ :=
  if sigmaST G s t = 0 then 0 else (sigmaThrough G s t v : ℚ) / (sigmaST G s t : ℚ)

/-- The ordered pairs `(s, t)` with `s ≠ t`, both distinct from `v`,
drawn from the node list. -/
def otherPairs (G : DiGraph) (v : Nat) : List (Nat × Nat) :=
  (G.nodeIds.erase v).flatMap (fun s => ((G.nodeIds.erase v).erase s).map (fun t => (s, t)))

/-- Unnormalised betweenness of `v`: the sum of the pair dependencies
over all ordered pairs of other nodes. -/
def betweennessRaw (G : DiGraph) (v : Nat) : ℚ :=
  ((otherPairs G v).map (fun p => pairDep G p.1 p.2 v)).sum

/-- Embeds `nx.betweenness_centrality` (directed, `normalized=True`): the raw
value rescaled by `1 / ((n-1)(n-2))` when `n > 2`, unscaled otherwise. -/
def betweenness_centrality (G : DiGraph) (v : Nat) : ℚ :=
  if 2 < G.number_of_nodes then
    betweennessRaw G v /
      (((G.number_of_nodes : ℚ) - 1) * ((G.number_of_nodes : ℚ) - 2))
  else betweennessRaw G v

/-- Embeds `betweenness.items()`: the nodes paired with their betweenness, in
dict (= node insertion) order. -/
def betweennessItems (G : DiGraph) : List (Nat × ℚ) :=
  G.nodeIds.map (fun v => (v, betweenness_centrality G v))

/-- Embeds `sorted(betweenness.items(), key=lambda x: x[1], reverse=True)`:
Python's sort is stable, and reversing the comparison on the key leaves
equal-key items in their original relative order; a stable insertion
sort has the same denotation. -/
def sortedByCentrality (G : DiGraph) : List (Nat × ℚ) :=
  List.insertionSort (fun a b => b.2 ≤ a.2) (betweennessItems G)

/-- Embeds `top_central` of `analyze_graph_structure`: the first five entries of
the stably-descending-sorted items. -/
def top_central (G : DiGraph) : List (Nat × ℚ) :=
  (sortedByCentrality G).take 5

/-- All ways to insert an element into a list (helper for a
kernel-computable permutation enumeration). -/
def insertsOf (a : Nat) : List Nat → List (List Nat)
  | [] => [[a]]
  | b :: l => (a :: b :: l) :: (insertsOf a l).map (fun x => b :: x)

/-- All permutations of a list, by structural recursion (so that the
kernel can evaluate cycle and path enumerations on concrete graphs). -/
def perms : List Nat → List (List Nat)
  | [] => [[]]
  | a :: l => (perms l).flatMap (insertsOf a)

/-- Whether a node list is an elementary cycle of `G` written in the
canonical rotation: nonempty, no repeated node, every consecutive pair
(wrapping around) is an edge, and it starts at its least node. -/
def isCanonCycle (G : DiGraph) (c : List Nat) : Bool :=
  !c.isEmpty && decide c.Nodup && decide (c.head? = c.min?) &&
    (c.zip (c.rotate 1)).all (fun p => decide (p ∈ G.edgeKeys))

/-- Embeds `nx.simple_cycles`, as the set it enumerates: every elementary cycle
(a self-loop counts as a cycle of length 1) appears exactly once, as its
canonical rotation. -/
def simple_cycles (G : DiGraph) : List (List Nat) :=
  (G.nodeIds.sublists.flatMap perms).filter (isCanonCycle G)

/-- Embeds `nx.is_directed_acyclic_graph`: no directed cycle exists. -/
def is_directed_acyclic_graph (G : DiGraph) : Bool :=
  (simple_cycles G).isEmpty

/-- Whether a node list is a simple directed path of `G` (one node is a
path with no edges). -/
def isSimplePath (G : DiGraph) (p : List Nat) : Bool :=
  !p.isEmpty && decide p.Nodup &&
    (p.zip p.tail).all (fun q => decide (q ∈ G.edgeKeys))

/-- All simple directed paths of `G`. -/
def simplePaths (G : DiGraph) : List (List Nat) :=
  (G.nodeIds.sublists.flatMap perms).filter (isSimplePath G)

/-- The first list of maximal length in a list of lists. -/
def argmaxLen (ps : List (List Nat)) : List Nat :=
  ps.foldl (fun best p => if best.length < p.length then p else best) []

/-- Embeds `nx.dag_longest_path`: on a DAG, a longest simple path (the tie among
equally long paths is broken deterministically; on the empty graph the
result is empty). -/
def dag_longest_path (G : DiGraph) : List Nat :=
  argmaxLen (simplePaths G)

/-- The longest-causal-chain lines of `analyze_graph_structure`:
`longest_path = nx.dag_longest_path(G) if nx.is_directed_acyclic_graph(G) else None`
followed by `if longest_path:` — on a cyclic graph (or an empty path)
nothing at all is written. -/
def longestChainLines (G : DiGraph) : List String :=
  let lp := if is_directed_acyclic_graph G then dag_longest_path G else []
  if lp.isEmpty then []
  else
    ["Longest causal chain: " ++ toString lp.length ++ " events",
     "Path: " ++ String.intercalate " -> " (lp.map toString)]

/-- The causal-loop count line data of `analyze_graph_structure`. -/
def causalLoopCount (G : DiGraph) : Nat := (simple_cycles G).length

/-- The distinct values of a list in first-occurrence order (the key
order of a freshly built pandas/Python counting dict). -/
def firstSeen {α : Type} [DecidableEq α] (l : List α) : List α :=
  l.foldl (fun acc a => if a ∈ acc then acc else acc ++ [a]) []

/-- Value counts in descending order of count (a stable sort, so equal
counts keep first-occurrence order), as `value_counts`/`most_common`
produce. -/
def countsDesc {α : Type} [DecidableEq α] (l : List α) : List (α × Nat) :=
  List.insertionSort (fun a b => b.2 ≤ a.2)
    ((firstSeen l).map (fun a => (a, l.count a)))

/-- Embeds `analyze_worlds`: one line per world label with its event count,
descending. -/
def analyze_worlds (events : List EventRow) : List String :=
  (countsDesc (events.map (fun e => e.world))).map
    (fun p => p.1 ++ ": " ++ toString p.2 ++ " events")

/-- The flattened character-mention list: each `Characters` cell split on
commas, each name trimmed of surrounding whitespace. -/
def allCharacters (events : List EventRow) : List String :=
  (events.map (fun e => e.characters)).flatMap
    (fun s => (s.splitOn ",").map String.trim)

/-- Embeds `analyze_character_involvement`: the ten most frequent characters,
descending. -/
def analyze_character_involvement (events : List EventRow) : List String :=
  ((countsDesc (allCharacters events)).take 10).map
    (fun p => p.1 ++ ": " ++ toString p.2 ++ " appearances")

/-- Embeds `analyze_important_events`: counts of the two boolean flags. -/
def analyze_important_events (events : List EventRow) : List String :=
  ["Important trigger events: " ++
     toString (events.countP (fun e => e.important_trigger)),
   "Death events: " ++ toString (events.countP (fun e => e.death))]

/-- Splits a character list at the dash separators of the `%d-%m-%Y`
format. -/
def splitDashes : List Char → List (List Char)
  | [] => [[]]
  | c :: rest =>
    let r := splitDashes rest
    if c = '-' then [] :: r
    else
      match r with
      | [] => [[c]]
      | g :: gs => (c :: g) :: gs

/-- Reads a nonempty all-digit character group as a number. -/
def digitsToNat? (cs : List Char) : Option Nat :=
  if cs ≠ [] ∧ cs.all Char.isDigit then
    some (cs.foldl (fun n c => n * 10 + (c.toNat - 48)) 0)
  else none

/-- Embeds `pd.to_datetime(_, format=DMY)` on one raw string: split on the
dashes into three numeric fields, day and month must be in calendar
range (day-granularity bounds simplified to `1..31`/`1..12`), and any
failure is a parse error. -/
def parseDate (s : String) : Option (Nat × Nat × Nat) :=
  match splitDashes s.toList with
  | [ds, ms, ys] =>
    match digitsToNat? ds, digitsToNat? ms, digitsToNat? ys with
    | some d, some m, some y =>
      if 1 ≤ d ∧ d ≤ 31 ∧ 1 ≤ m ∧ m ≤ 12 then some (d, m, y) else none
    | _, _, _ => none
  | _ => none

/-- Embeds `pd.to_datetime` on one `Date` cell: a raw string is parsed (failing
when malformed); an already-parsed datetime passes through unchanged. -/
def toDatetime : DateVal → Option DateVal
  | DateVal.raw s => (parseDate s).map (fun t => DateVal.parsed t.1 t.2.1 t.2.2)
  | DateVal.parsed d m y => some (DateVal.parsed d m y)

/-- The whole-column conversion
`events_df['Date'] = pd.to_datetime(events_df['Date'], ...)`: every row's
`Date` is replaced by its parsed value, and a single unparseable cell
fails the whole conversion. -/
def convertDates : List EventRow → Option (List EventRow)
  | [] => some []
  | e :: rest =>
    match toDatetime e.date, convertDates rest with
    | some dv, some rest2 => some ({ e with date := dv } :: rest2)
    | _, _ => none

/-- The year of a parsed `Date` cell (`Series.dt.year`). -/
def yearOf : DateVal → Option Nat
  | DateVal.parsed _ _ y => some y
  | DateVal.raw _ => none

/-- The years of the (converted) events, in row order. -/
def yearsOf (events : List EventRow) : List Nat :=
  events.filterMap (fun e => yearOf e.date)

/-- The per-year report lines: `value_counts().sort_index()`, ascending
by year, plus the time-span line when more than one distinct year
occurs. -/
def temporalLines (events : List EventRow) : List String :=
  let ys := yearsOf events
  let sortedYears := List.insertionSort (fun a b => a ≤ b) (firstSeen ys)
  (sortedYears.map (fun y =>
    "Year " ++ toString y ++ ": " ++ toString (ys.count y) ++ " events")) ++
  (if 1 < sortedYears.length then
    ["Total time span: " ++
       toString (sortedYears.getLastD 0 - sortedYears.headD 0) ++ " years"]
   else [])

/-- Embeds `analyze_temporal_patterns`: converts the `Date` column in place
(mutating the shared dataframe, returned here as the first component);
an unparseable date raises — the analysis aborts with no output and no
skipped-row record. -/
def analyze_temporal_patterns (events : List EventRow) :
    Except String (List EventRow × List String) :=
  match convertDates events with
  | none => Except.error "time data does not match format %d-%m-%Y"
  | some events2 => Except.ok (events2, temporalLines events2)

/-- Lookup of a node's attribute dict: `none` when the node is absent,
`some none` when the node exists with an empty dict. -/
def DiGraph.nodeAttr? (G : DiGraph) (v : Nat) : Option (Option NodeAttrs) :=
  (G.nodes.find? (fun p => p.1 == v)).map Prod.snd

/-- Lookup of an edge's attributes by its ordered pair. -/
def DiGraph.edgeAttr? (G : DiGraph) (k : Nat × Nat) : Option EdgeAttrs :=
  (G.edges.find? (fun p => p.1 == k)).map Prod.snd

/-- The edge rows that pass the `pd.notna` test, as (ordered pair,
attributes), in row order — exactly the `add_edge` calls `create_graph`
makes. -/
def processedEdges (edge_rows : List EdgeRow) : List ((Nat × Nat) × EdgeAttrs) :=
  edge_rows.filterMap (fun r =>
    match r.source, r.target with
    | some s, some t => some ((s, t), mkEdgeAttrs r)
    | _, _ => none)

/-- The ordered endpoint pairs of the processed edge rows. -/
def validPairs (edge_rows : List EdgeRow) : List (Nat × Nat) :=
  (processedEdges edge_rows).map Prod.fst

/-- The endpoints occurring in processed edge rows, in order. -/
def validEndpoints (edge_rows : List EdgeRow) : List Nat :=
  (validPairs edge_rows).flatMap (fun p => [p.1, p.2])

/-- Modelled from the spec's words (for refutation only): an edge row
both of whose endpoints "reference an existing event identifier". -/
def resolvesToEvents (events : List EventRow) (r : EdgeRow) : Bool :=
  match r.source, r.target with
  | some s, some t =>
    decide (s ∈ events.map (fun e => e.id)) &&
      decide (t ∈ events.map (fun e => e.id))
  | _, _ => false

/-- Modelled from the spec's words (for refutation only): a ranking in
descending order of centrality with ties broken by identifier
ascending. -/
def specTop5Order (l : List (Nat × ℚ)) : Prop :=
  l.Pairwise (fun a b => b.2 < a.2 ∨ (a.2 = b.2 ∧ a.1 < b.1))

/-- An event row fixture with a given identifier and default fields. -/
def evRow (i : Nat) : EventRow :=
  ⟨i, "", DateVal.raw "", false, false, "", ""⟩

/-- An edge row fixture with present endpoints and default attributes. -/
def edRow (s t : Nat) : EdgeRow := ⟨some s, some t, "", ""⟩

/-- An event row with its `Date` cell blanked, used to express that a
computation reads every field except the date. -/
def eraseDate (e : EventRow) : EventRow := { e with date := DateVal.raw "" }

/-! ### Association-list lemmas -/

theorem upsertAssoc_keys {α β : Type} [DecidableEq α] (l : List (α × β))
    (k : α) (b : β) :
    (upsertAssoc l k b).map Prod.fst =
      if k ∈ l.map Prod.fst then l.map Prod.fst else l.map Prod.fst ++ [k] := by
  induction l with
  | nil => simp [upsertAssoc]
  | cons p rest ih =>
    obtain ⟨k2, b2⟩ := p
    by_cases h : k2 = k
    · subst h
      simp [upsertAssoc]
    · have hk : ¬(k = k2) := fun hh => h hh.symm
      simp only [upsertAssoc, if_neg h, List.map_cons, List.mem_cons, ih]
      by_cases hm : k ∈ rest.map Prod.fst
      · simp [hm, hk]
      · simp [hm, hk]

theorem mem_upsertAssoc_keys {α β : Type} [DecidableEq α]
    {l : List (α × β)} {k : α} {b : β} {x : α} :
    x ∈ (upsertAssoc l k b).map Prod.fst ↔ x ∈ l.map Prod.fst ∨ x = k := by
  rw [upsertAssoc_keys]
  by_cases hm : k ∈ l.map Prod.fst
  · simp only [if_pos hm]
    constructor
    · exact Or.inl
    · rintro (hx | rfl)
      · exact hx
      · exact hm
  · simp [if_neg hm]

theorem nodup_upsertAssoc_keys {α β : Type} [DecidableEq α]
    {l : List (α × β)} {k : α} {b : β} (h : (l.map Prod.fst).Nodup) :
    ((upsertAssoc l k b).map Prod.fst).Nodup := by
  rw [upsertAssoc_keys]
  by_cases hm : k ∈ l.map Prod.fst
  · simpa [if_pos hm] using h
  · simp [if_neg hm, List.nodup_append, h, hm]

theorem upsertAssoc_find_self {α β : Type} [DecidableEq α] [BEq α] [LawfulBEq α]
    (l : List (α × β)) (k : α) (b : β) :
    (upsertAssoc l k b).find? (fun p => p.1 == k) = some (k, b) := by
  induction l with
  | nil => simp [upsertAssoc]
  | cons p rest ih =>
    obtain ⟨k2, b2⟩ := p
    by_cases h : k2 = k
    · subst h
      simp [upsertAssoc]
    · simp [upsertAssoc, h, List.find?_cons, ih]

theorem upsertAssoc_find_other {α β : Type} [DecidableEq α] [BEq α] [LawfulBEq α]
    (l : List (α × β)) (k : α) (b : β) {x : α} (hx : x ≠ k) :
    (upsertAssoc l k b).find? (fun p => p.1 == x) = l.find? (fun p => p.1 == x) := by
  have hk : ¬(k = x) := fun hh => hx hh.symm
  induction l with
  | nil => simp [upsertAssoc, hk]
  | cons p rest ih =>
    obtain ⟨k2, b2⟩ := p
    by_cases h : k2 = k
    · subst h
      simp [upsertAssoc, hk]
    · by_cases h2 : k2 = x
      · subst h2
        simp [upsertAssoc, h]
      · simp [upsertAssoc, h, h2, ih]

theorem ensureNode_keys (ns : List (Nat × Option NodeAttrs)) (v : Nat) :
    (ensureNode ns v).map Prod.fst =
      if v ∈ ns.map Prod.fst then ns.map Prod.fst else ns.map Prod.fst ++ [v] := by
  unfold ensureNode
  split <;> simp_all

theorem mem_ensureNode_keys {ns : List (Nat × Option NodeAttrs)} {v x : Nat} :
    x ∈ (ensureNode ns v).map Prod.fst ↔ x ∈ ns.map Prod.fst ∨ x = v := by
  rw [ensureNode_keys]
  by_cases hm : v ∈ ns.map Prod.fst
  · simp only [if_pos hm]
    constructor
    · exact Or.inl
    · rintro (hx | rfl)
      · exact hx
      · exact hm
  · simp [if_neg hm]

theorem nodup_ensureNode_keys {ns : List (Nat × Option NodeAttrs)} {v : Nat}
    (h : (ns.map Prod.fst).Nodup) : ((ensureNode ns v).map Prod.fst).Nodup := by
  rw [ensureNode_keys]
  by_cases hm : v ∈ ns.map Prod.fst
  · simpa [if_pos hm] using h
  · simp [if_neg hm, List.nodup_append, h, hm]

theorem ensureNode_find_of_mem {ns : List (Nat × Option NodeAttrs)} {v x : Nat}
    (h : x ∈ ns.map Prod.fst) :
    (ensureNode ns v).find? (fun p => p.1 == x) = ns.find? (fun p => p.1 == x) := by
  unfold ensureNode
  split
  · rfl
  · rw [List.find?_append]
    have hs : (ns.find? (fun p => p.1 == x)).isSome := by
      rw [List.find?_isSome]
      obtain ⟨p, hp, hpx⟩ := List.mem_map.mp h
      exact ⟨p, hp, by simp [hpx]⟩
    obtain ⟨p, hp⟩ := Option.isSome_iff_exists.mp hs
    simp [hp]

/-! ### Shapes of the processed edge-row list -/

theorem processedEdges_nil : processedEdges [] = [] := rfl

theorem processedEdges_cons_skip {r : EdgeRow} {rest : List EdgeRow}
    (h : r.source = none ∨ r.target = none) :
    processedEdges (r :: rest) = processedEdges rest := by
  unfold processedEdges
  rw [List.filterMap_cons]
  rcases h with h | h <;> cases hs : r.source <;> cases ht : r.target <;>
    simp_all

theorem processedEdges_cons_keep {r : EdgeRow} {rest : List EdgeRow} {s t : Nat}
    (hs : r.source = some s) (ht : r.target = some t) :
    processedEdges (r :: rest) = ((s, t), mkEdgeAttrs r) :: processedEdges rest := by
  unfold processedEdges
  rw [List.filterMap_cons, hs, ht]

theorem validPairs_cons_skip {r : EdgeRow} {rest : List EdgeRow}
    (h : r.source = none ∨ r.target = none) :
    validPairs (r :: rest) = validPairs rest := by
  unfold validPairs
  rw [processedEdges_cons_skip h]

theorem validPairs_cons_keep {r : EdgeRow} {rest : List EdgeRow} {s t : Nat}
    (hs : r.source = some s) (ht : r.target = some t) :
    validPairs (r :: rest) = (s, t) :: validPairs rest := by
  unfold validPairs
  rw [processedEdges_cons_keep hs ht, List.map_cons]

theorem validEndpoints_cons_skip {r : EdgeRow} {rest : List EdgeRow}
    (h : r.source = none ∨ r.target = none) :
    validEndpoints (r :: rest) = validEndpoints rest := by
  unfold validEndpoints
  rw [validPairs_cons_skip h]

theorem validEndpoints_cons_keep {r : EdgeRow} {rest : List EdgeRow} {s t : Nat}
    (hs : r.source = some s) (ht : r.target = some t) :
    validEndpoints (r :: rest) = s :: t :: validEndpoints rest := by
  unfold validEndpoints
  rw [validPairs_cons_keep hs ht, List.flatMap_cons]
  rfl

/-! ### Membership and nodup invariants of the builder -/

theorem mem_add_node_nodeIds {g : DiGraph} {w : Nat} {a : NodeAttrs} {x : Nat} :
    x ∈ (g.add_node w a).nodeIds ↔ x ∈ g.nodeIds ∨ x = w :=
  mem_upsertAssoc_keys

theorem mem_add_edge_nodeIds {g : DiGraph} {s t : Nat} {a : EdgeAttrs} {x : Nat} :
    x ∈ (g.add_edge s t a).nodeIds ↔ x ∈ g.nodeIds ∨ x = s ∨ x = t := by
  show x ∈ (ensureNode (ensureNode g.nodes s) t).map Prod.fst ↔ _
  rw [mem_ensureNode_keys, mem_ensureNode_keys]
  tauto

theorem mem_add_edge_edgeKeys {g : DiGraph} {s t : Nat} {a : EdgeAttrs}
    {k : Nat × Nat} :
    k ∈ (g.add_edge s t a).edgeKeys ↔ k ∈ g.edgeKeys ∨ k = (s, t) :=
  mem_upsertAssoc_keys

theorem nodup_add_edge_nodeIds {g : DiGraph} {s t : Nat} {a : EdgeAttrs}
    (h : g.nodeIds.Nodup) : (g.add_edge s t a).nodeIds.Nodup :=
  nodup_ensureNode_keys (nodup_ensureNode_keys h)

theorem mem_nodesFold_nodeIds {events : List EventRow} {g : DiGraph} {v : Nat} :
    v ∈ (events.foldl addEventNode g).nodeIds ↔
      v ∈ g.nodeIds ∨ v ∈ events.map (fun e => e.id) := by
  induction events generalizing g with
  | nil => simp
  | cons e rest ih =>
    rw [List.foldl_cons, ih]
    rw [show (addEventNode g e) = g.add_node e.id (mkNodeAttrs e) from rfl]
    rw [mem_add_node_nodeIds]
    simp only [List.map_cons, List.mem_cons]
    tauto

theorem nodup_nodesFold_nodeIds (events : List EventRow) {g : DiGraph}
    (h : g.nodeIds.Nodup) : (events.foldl addEventNode g).nodeIds.Nodup := by
  induction events generalizing g with
  | nil => exact h
  | cons e rest ih =>
    rw [List.foldl_cons]
    exact ih (nodup_upsertAssoc_keys h)

theorem nodesFold_edges (events : List EventRow) (g : DiGraph) :
    (events.foldl addEventNode g).edges = g.edges := by
  induction events generalizing g with
  | nil => rfl
  | cons e rest ih => rw [List.foldl_cons]; exact ih _

theorem mem_edgesFold_nodeIds {rows : List EdgeRow} {g : DiGraph} {v : Nat} :
    v ∈ (rows.foldl addEdgeRow g).nodeIds ↔
      v ∈ g.nodeIds ∨ v ∈ validEndpoints rows := by
  induction rows generalizing g with
  | nil => simp [validEndpoints, validPairs, processedEdges]
  | cons r rest ih =>
    rw [List.foldl_cons]
    cases hs : r.source with
    | none =>
      rw [show addEdgeRow g r = g by unfold addEdgeRow; rw [hs], ih,
        validEndpoints_cons_skip (Or.inl hs)]
    | some s =>
      cases ht : r.target with
      | none =>
        rw [show addEdgeRow g r = g by unfold addEdgeRow; rw [hs, ht], ih,
          validEndpoints_cons_skip (Or.inr ht)]
      | some t =>
        rw [show addEdgeRow g r = g.add_edge s t (mkEdgeAttrs r) by
          unfold addEdgeRow; rw [hs, ht], ih, mem_add_edge_nodeIds,
          validEndpoints_cons_keep hs ht]
        simp only [List.mem_cons]
        tauto

theorem nodup_edgesFold_nodeIds (rows : List EdgeRow) {g : DiGraph}
    (h : g.nodeIds.Nodup) : (rows.foldl addEdgeRow g).nodeIds.Nodup := by
  induction rows generalizing g with
  | nil => exact h
  | cons r rest ih =>
    rw [List.foldl_cons]
    cases hs : r.source with
    | none => rw [show addEdgeRow g r = g by unfold addEdgeRow; rw [hs]]; exact ih h
    | some s =>
      cases ht : r.target with
      | none =>
        rw [show addEdgeRow g r = g by unfold addEdgeRow; rw [hs, ht]]
        exact ih h
      | some t =>
        rw [show addEdgeRow g r = g.add_edge s t (mkEdgeAttrs r) by
          unfold addEdgeRow; rw [hs, ht]]
        exact ih (nodup_add_edge_nodeIds h)

theorem mem_edgesFold_edgeKeys {rows : List EdgeRow} {g : DiGraph}
    {k : Nat × Nat} :
    k ∈ (rows.foldl addEdgeRow g).edgeKeys ↔
      k ∈ g.edgeKeys ∨ k ∈ validPairs rows := by
  induction rows generalizing g with
  | nil => simp [validPairs, processedEdges]
  | cons r rest ih =>
    rw [List.foldl_cons]
    cases hs : r.source with
    | none =>
      rw [show addEdgeRow g r = g by unfold addEdgeRow; rw [hs], ih,
        validPairs_cons_skip (Or.inl hs)]
    | some s =>
      cases ht : r.target with
      | none =>
        rw [show addEdgeRow g r = g by unfold addEdgeRow; rw [hs, ht], ih,
          validPairs_cons_skip (Or.inr ht)]
      | some t =>
        rw [show addEdgeRow g r = g.add_edge s t (mkEdgeAttrs r) by
          unfold addEdgeRow; rw [hs, ht], ih, mem_add_edge_edgeKeys,
          validPairs_cons_keep hs ht]
        simp only [List.mem_cons]
        tauto

theorem nodup_edgesFold_edgeKeys (rows : List EdgeRow) {g : DiGraph}
    (h : g.edgeKeys.Nodup) : (rows.foldl addEdgeRow g).edgeKeys.Nodup := by
  induction rows generalizing g with
  | nil => exact h
  | cons r rest ih =>
    rw [List.foldl_cons]
    cases hs : r.source with
    | none => rw [show addEdgeRow g r = g by unfold addEdgeRow; rw [hs]]; exact ih h
    | some s =>
      cases ht : r.target with
      | none =>
        rw [show addEdgeRow g r = g by unfold addEdgeRow; rw [hs, ht]]
        exact ih h
      | some t =>
        rw [show addEdgeRow g r = g.add_edge s t (mkEdgeAttrs r) by
          unfold addEdgeRow; rw [hs, ht]]
        exact ih (nodup_upsertAssoc_keys h)

theorem edgesFold_endpoints {rows : List EdgeRow} {g : DiGraph}
    (h : ∀ k ∈ g.edgeKeys, k.1 ∈ g.nodeIds ∧ k.2 ∈ g.nodeIds) :
    ∀ k ∈ (rows.foldl addEdgeRow g).edgeKeys,
      k.1 ∈ (rows.foldl addEdgeRow g).nodeIds ∧
      k.2 ∈ (rows.foldl addEdgeRow g).nodeIds := by
  induction rows generalizing g with
  | nil => exact h
  | cons r rest ih =>
    rw [List.foldl_cons]
    cases hs : r.source with
    | none => rw [show addEdgeRow g r = g by unfold addEdgeRow; rw [hs]]; exact ih h
    | some s =>
      cases ht : r.target with
      | none =>
        rw [show addEdgeRow g r = g by unfold addEdgeRow; rw [hs, ht]]
        exact ih h
      | some t =>
        rw [show addEdgeRow g r = g.add_edge s t (mkEdgeAttrs r) by
          unfold addEdgeRow; rw [hs, ht]]
        apply ih
        intro k hk
        rcases mem_add_edge_edgeKeys.mp hk with hk2 | rfl
        · obtain ⟨h1, h2⟩ := h k hk2
          exact ⟨mem_add_edge_nodeIds.mpr (Or.inl h1),
                 mem_add_edge_nodeIds.mpr (Or.inl h2)⟩
        · exact ⟨mem_add_edge_nodeIds.mpr (Or.inr (Or.inl rfl)),
                 mem_add_edge_nodeIds.mpr (Or.inr (Or.inr rfl))⟩

/-! ### Invariants of `create_graph` -/

theorem mem_create_graph_nodeIds {events : List EventRow}
    {rows : List EdgeRow} {v : Nat} :
    v ∈ (create_graph events rows).nodeIds ↔
      v ∈ events.map (fun e => e.id) ∨ v ∈ validEndpoints rows := by
  unfold create_graph
  rw [mem_edgesFold_nodeIds, mem_nodesFold_nodeIds]
  show (v ∈ ([] : List Nat) ∨ _) ∨ _ ↔ _
  simp only [List.not_mem_nil, false_or]

theorem mem_create_graph_edgeKeys {events : List EventRow}
    {rows : List EdgeRow} {k : Nat × Nat} :
    k ∈ (create_graph events rows).edgeKeys ↔ k ∈ validPairs rows := by
  unfold create_graph
  rw [mem_edgesFold_edgeKeys]
  have he : (events.foldl addEventNode ⟨[], []⟩).edges = [] :=
    nodesFold_edges events _
  rw [show (events.foldl addEventNode ⟨[], []⟩).edgeKeys =
      ((events.foldl addEventNode ⟨[], []⟩).edges).map Prod.fst from rfl, he]
  simp only [List.map_nil, List.not_mem_nil, false_or]

theorem create_graph_nodeIds_nodup (events : List EventRow)
    (rows : List EdgeRow) : (create_graph events rows).nodeIds.Nodup := by
  unfold create_graph
  exact nodup_edgesFold_nodeIds rows
    (nodup_nodesFold_nodeIds events (by simp [DiGraph.nodeIds]))

theorem create_graph_edgeKeys_nodup (events : List EventRow)
    (rows : List EdgeRow) : (create_graph events rows).edgeKeys.Nodup := by
  unfold create_graph
  apply nodup_edgesFold_edgeKeys rows
  have he : (events.foldl addEventNode ⟨[], []⟩).edges = [] :=
    nodesFold_edges events _
  rw [show (events.foldl addEventNode ⟨[], []⟩).edgeKeys =
      ((events.foldl addEventNode ⟨[], []⟩).edges).map Prod.fst from rfl, he]
  exact List.nodup_nil

theorem create_graph_endpoints_mem {events : List EventRow}
    {rows : List EdgeRow} :
    ∀ k ∈ (create_graph events rows).edgeKeys,
      k.1 ∈ (create_graph events rows).nodeIds ∧
      k.2 ∈ (create_graph events rows).nodeIds := by
  unfold create_graph
  apply edgesFold_endpoints
  intro k hk
  have he : (events.foldl addEventNode ⟨[], []⟩).edges = [] :=
    nodesFold_edges events _
  rw [show (events.foldl addEventNode ⟨[], []⟩).edgeKeys =
      ((events.foldl addEventNode ⟨[], []⟩).edges).map Prod.fst from rfl, he] at hk
  simp at hk

/-! ### Attribute lookups: the last write wins, nothing is rejected -/

theorem add_node_nodeAttr_self (g : DiGraph) (w : Nat) (a : NodeAttrs) :
    (g.add_node w a).nodeAttr? w = some (some a) := by
  unfold DiGraph.nodeAttr? DiGraph.add_node
  rw [upsertAssoc_find_self]
  rfl

theorem add_node_nodeAttr_other (g : DiGraph) (w : Nat) (a : NodeAttrs)
    {x : Nat} (hx : x ≠ w) : (g.add_node w a).nodeAttr? x = g.nodeAttr? x := by
  unfold DiGraph.nodeAttr? DiGraph.add_node
  rw [upsertAssoc_find_other _ _ _ hx]

theorem nodesFold_nodeAttr (events : List EventRow) (g : DiGraph) (v : Nat) :
    (events.foldl addEventNode g).nodeAttr? v =
      ((events.filter (fun e => e.id == v)).getLast?).elim (g.nodeAttr? v)
        (fun e => some (some (mkNodeAttrs e))) := by
  induction events generalizing g with
  | nil => rfl
  | cons e rest ih =>
    rw [List.foldl_cons, ih]
    by_cases he : e.id = v
    · have hf : (e :: rest).filter (fun e2 => e2.id == v) =
          e :: rest.filter (fun e2 => e2.id == v) := by
        simp [List.filter_cons, he]
      rw [hf]
      cases hl : (rest.filter (fun e2 => e2.id == v)).getLast? with
      | some e2 =>
        have hne : rest.filter (fun e2 => e2.id == v) ≠ [] := by
          intro h0
          rw [h0] at hl
          simp at hl
        obtain ⟨x, xs, hxs⟩ := List.exists_cons_of_ne_nil hne
        rw [hxs] at hl ⊢
        rw [List.getLast?_cons_cons, hl]
        rfl
      | none =>
        have h0 : rest.filter (fun e2 => e2.id == v) = [] :=
          List.getLast?_eq_none_iff.mp hl
        rw [h0]
        show (addEventNode g e).nodeAttr? v = _
        rw [show addEventNode g e = g.add_node e.id (mkNodeAttrs e) from rfl]
        rw [← he, add_node_nodeAttr_self]
        rfl
    · have hf : (e :: rest).filter (fun e2 => e2.id == v) =
          rest.filter (fun e2 => e2.id == v) := by
        simp [List.filter_cons, he]
      rw [hf,
        show (addEventNode g e).nodeAttr? v = g.nodeAttr? v from
          add_node_nodeAttr_other g e.id (mkNodeAttrs e) (fun hh => he hh.symm)]

theorem edgesFold_nodeAttr {rows : List EdgeRow} {g : DiGraph} {v : Nat}
    (h : v ∈ g.nodeIds) :
    (rows.foldl addEdgeRow g).nodeAttr? v = g.nodeAttr? v := by
  induction rows generalizing g with
  | nil => rfl
  | cons r rest ih =>
    rw [List.foldl_cons]
    cases hs : r.source with
    | none => rw [show addEdgeRow g r = g by unfold addEdgeRow; rw [hs]]; exact ih h
    | some s =>
      cases ht : r.target with
      | none =>
        rw [show addEdgeRow g r = g by unfold addEdgeRow; rw [hs, ht]]
        exact ih h
      | some t =>
        rw [show addEdgeRow g r = g.add_edge s t (mkEdgeAttrs r) by
          unfold addEdgeRow; rw [hs, ht]]
        rw [ih (mem_add_edge_nodeIds.mpr (Or.inl h))]
        show ((ensureNode (ensureNode g.nodes s) t).find?
          (fun p => p.1 == v)).map Prod.snd = _
        rw [ensureNode_find_of_mem (mem_ensureNode_keys.mpr (Or.inl h)),
          ensureNode_find_of_mem h]
        rfl

theorem add_edge_edgeAttr_self (g : DiGraph) (s t : Nat) (a : EdgeAttrs) :
    (g.add_edge s t a).edgeAttr? (s, t) = some a := by
  unfold DiGraph.edgeAttr? DiGraph.add_edge
  rw [upsertAssoc_find_self]
  rfl

theorem add_edge_edgeAttr_other (g : DiGraph) (s t : Nat) (a : EdgeAttrs)
    {k : Nat × Nat} (hk : k ≠ (s, t)) :
    (g.add_edge s t a).edgeAttr? k = g.edgeAttr? k := by
  unfold DiGraph.edgeAttr? DiGraph.add_edge
  rw [upsertAssoc_find_other _ _ _ hk]

theorem edgesFold_edgeAttr (rows : List EdgeRow) (g : DiGraph) (k : Nat × Nat) :
    (rows.foldl addEdgeRow g).edgeAttr? k =
      (((processedEdges rows).filter (fun p => p.1 == k)).getLast?).elim
        (g.edgeAttr? k) (fun p => some p.2) := by
  induction rows generalizing g with
  | nil => rfl
  | cons r rest ih =>
    rw [List.foldl_cons]
    cases hs : r.source with
    | none =>
      rw [show addEdgeRow g r = g by unfold addEdgeRow; rw [hs], ih,
        processedEdges_cons_skip (Or.inl hs)]
    | some s =>
      cases ht : r.target with
      | none =>
        rw [show addEdgeRow g r = g by unfold addEdgeRow; rw [hs, ht], ih,
          processedEdges_cons_skip (Or.inr ht)]
      | some t =>
        rw [show addEdgeRow g r = g.add_edge s t (mkEdgeAttrs r) by
          unfold addEdgeRow; rw [hs, ht], ih, processedEdges_cons_keep hs ht]
        by_cases hk : (s, t) = k
        · have hf : ((((s, t), mkEdgeAttrs r) :: processedEdges rest).filter
              (fun p => p.1 == k)) =
              ((s, t), mkEdgeAttrs r) :: (processedEdges rest).filter
                (fun p => p.1 == k) := by
            simp [List.filter_cons, hk]
          rw [hf]
          cases hl : ((processedEdges rest).filter (fun p => p.1 == k)).getLast? with
          | some p =>
            have hne : (processedEdges rest).filter (fun p => p.1 == k) ≠ [] := by
              intro h0
              rw [h0] at hl
              simp at hl
            obtain ⟨x, xs, hxs⟩ := List.exists_cons_of_ne_nil hne
            rw [hxs] at hl ⊢
            rw [List.getLast?_cons_cons, hl]
            rfl
          | none =>
            have h0 : (processedEdges rest).filter (fun p => p.1 == k) = [] :=
              List.getLast?_eq_none_iff.mp hl
            rw [h0]
            subst hk
            rw [add_edge_edgeAttr_self]
            rfl
        · have hf : ((((s, t), mkEdgeAttrs r) :: processedEdges rest).filter
              (fun p => p.1 == k)) =
              (processedEdges rest).filter (fun p => p.1 == k) := by
            simp [List.filter_cons, hk]
          rw [hf, add_edge_edgeAttr_other g s t (mkEdgeAttrs r)
            (fun hh => hk hh.symm)]

theorem create_graph_edgeAttr (events : List EventRow) (rows : List EdgeRow)
    (k : Nat × Nat) :
    (create_graph events rows).edgeAttr? k =
      (((processedEdges rows).filter (fun p => p.1 == k)).getLast?).map
        Prod.snd := by
  unfold create_graph
  rw [edgesFold_edgeAttr]
  have hz : (events.foldl addEventNode (⟨[], []⟩ : DiGraph)).edgeAttr? k = none := by
    unfold DiGraph.edgeAttr?
    rw [nodesFold_edges]
    rfl
  rw [hz]
  cases ((processedEdges rows).filter (fun p => p.1 == k)).getLast? <;> rfl

theorem create_graph_nodeAttr_lastWrite {events : List EventRow}
    {rows : List EdgeRow} {v : Nat} {e0 : EventRow}
    (h : (events.filter (fun e => e.id == v)).getLast? = some e0) :
    (create_graph events rows).nodeAttr? v = some (some (mkNodeAttrs e0)) := by
  have he0 : e0 ∈ events.filter (fun e => e.id == v) :=
    List.mem_of_getLast?_eq_some h
  have he0' := List.mem_filter.mp he0
  have hmem : v ∈ (events.foldl addEventNode (⟨[], []⟩ : DiGraph)).nodeIds := by
    rw [mem_nodesFold_nodeIds]
    right
    exact List.mem_map.mpr ⟨e0, he0'.1, by simpa using he0'.2⟩
  unfold create_graph
  rw [edgesFold_nodeAttr hmem, nodesFold_nodeAttr, h]
  rfl

/-! ### Counting consequences -/

theorem processedEdges_length (rows : List EdgeRow) :
    (processedEdges rows).length =
      rows.countP (fun r => r.source.isSome && r.target.isSome) := by
  induction rows with
  | nil => rfl
  | cons r rest ih =>
    rw [List.countP_cons]
    cases hs : r.source with
    | none =>
      rw [processedEdges_cons_skip (Or.inl hs), ih]
      simp [hs]
    | some s =>
      cases ht : r.target with
      | none =>
        rw [processedEdges_cons_skip (Or.inr ht), ih]
        simp [hs, ht]
      | some t =>
        rw [processedEdges_cons_keep hs ht, List.length_cons, ih]
        simp [hs, ht]

theorem countP_not_add (rows : List EdgeRow) (p : EdgeRow → Bool) :
    rows.countP p + rows.countP (fun r => !(p r)) = rows.length := by
  induction rows with
  | nil => rfl
  | cons r rest ih =>
    rw [List.countP_cons, List.countP_cons, List.length_cons, ← ih]
    cases hp : p r <;> simp <;> omega

theorem create_graph_node_count (events : List EventRow) (rows : List EdgeRow) :
    (create_graph events rows).number_of_nodes =
      (events.map (fun e => e.id) ++ validEndpoints rows).toFinset.card := by
  have hnd := create_graph_nodeIds_nodup events rows
  have hset : (create_graph events rows).nodeIds.toFinset =
      (events.map (fun e => e.id) ++ validEndpoints rows).toFinset := by
    ext x
    simp only [List.mem_toFinset, List.mem_append]
    exact mem_create_graph_nodeIds
  have hlen : (create_graph events rows).number_of_nodes =
      (create_graph events rows).nodeIds.length := by
    unfold DiGraph.number_of_nodes DiGraph.nodeIds
    rw [List.length_map]
  rw [hlen, ← List.toFinset_card_of_nodup hnd, hset]

theorem create_graph_edge_count (events : List EventRow) (rows : List EdgeRow) :
    (create_graph events rows).number_of_edges =
      (validPairs rows).toFinset.card := by
  have hnd := create_graph_edgeKeys_nodup events rows
  have hset : (create_graph events rows).edgeKeys.toFinset =
      (validPairs rows).toFinset := by
    ext x
    simp only [List.mem_toFinset]
    exact mem_create_graph_edgeKeys
  have hlen : (create_graph events rows).number_of_edges =
      (create_graph events rows).edgeKeys.length := by
    unfold DiGraph.number_of_edges DiGraph.edgeKeys
    rw [List.length_map]
  rw [hlen, ← List.toFinset_card_of_nodup hnd, hset]

/-! ### Claim C1 -/

/-- C1, corrected.  The claim said: one node per distinct event
identifier and one edge per edge row whose endpoints both reference an
existing event identifier.  In fact `add_edge` auto-creates missing
endpoints, so the node set is the distinct event identifiers *together
with all endpoints of non-NaN edge rows*, and the edge count is the
number of *distinct ordered pairs* among those rows (parallel rows
collapse); membership is characterised exactly, so no other nodes or
edges are present. -/
theorem c1_graph_size (events : List EventRow) (rows : List EdgeRow) :
    (∀ v, v ∈ (create_graph events rows).nodeIds ↔
        v ∈ events.map (fun e => e.id) ∨ v ∈ validEndpoints rows) ∧
    (∀ k, k ∈ (create_graph events rows).edgeKeys ↔ k ∈ validPairs rows) ∧
    (create_graph events rows).number_of_nodes =
      (events.map (fun e => e.id) ++ validEndpoints rows).toFinset.card ∧
    (create_graph events rows).number_of_edges =
      (validPairs rows).toFinset.card :=
  ⟨fun _ => mem_create_graph_nodeIds, fun _ => mem_create_graph_edgeKeys,
   create_graph_node_count events rows, create_graph_edge_count events rows⟩

/-- C1 as stated is false: with one event `1` and one edge row `(1, 2)`,
the graph has 2 nodes (the input has 1 distinct event identifier) and
1 edge (0 rows have both endpoints referencing an existing event
identifier) — `add_edge` silently creates node `2`. -/
theorem c1_counterexample :
    (create_graph [evRow 1] [edRow 1 2]).number_of_nodes = 2 ∧
    ([evRow 1].map (fun e => e.id)).toFinset.card = 1 ∧
    (create_graph [evRow 1] [edRow 1 2]).number_of_edges = 1 ∧
    [edRow 1 2].countP (resolvesToEvents [evRow 1]) = 0 := by
  refine ⟨by decide, by decide, by decide, by decide⟩

/-! ### Claim C2 -/

/-- C2, corrected.  There is no `DuplicateNodeError`: `create_graph` is
total, and on duplicate identifiers the later event row's attributes
silently overwrite the earlier node's attributes (last write wins). -/
theorem c2_duplicate_overwrites {events : List EventRow}
    {rows : List EdgeRow} {v : Nat} {e0 : EventRow}
    (h : (events.filter (fun e => e.id == v)).getLast? = some e0) :
    (create_graph events rows).nodeAttr? v = some (some (mkNodeAttrs e0)) :=
  create_graph_nodeAttr_lastWrite h

theorem c2_duplicate_overwrites_witness :
    (([⟨1, "first", DateVal.raw "", false, false, "", ""⟩,
       ⟨1, "second", DateVal.raw "", false, false, "", ""⟩] :
        List EventRow).filter
        (fun e => e.id == 1)).getLast? =
      some ⟨1, "second", DateVal.raw "", false, false, "", ""⟩ ∧
    (create_graph
        [⟨1, "first", DateVal.raw "", false, false, "", ""⟩,
         ⟨1, "second", DateVal.raw "", false, false, "", ""⟩] []).nodeAttr? 1 =
      some (some (mkNodeAttrs ⟨1, "second", DateVal.raw "", false, false, "", ""⟩)) :=
  ⟨by decide, c2_duplicate_overwrites (by decide)⟩

/-- C2 as stated is false: two event rows with identifier 1 do not make
graph construction fail — the result is a single node carrying the
second row's attributes, the first row's are silently overwritten. -/
theorem c2_counterexample :
    create_graph
        [⟨1, "first", DateVal.raw "", false, false, "", ""⟩,
         ⟨1, "second", DateVal.raw "", false, false, "", ""⟩] [] =
      ⟨[(1, some ⟨"second", DateVal.raw "", false, false, "", ""⟩)], []⟩ := by
  decide

/-! ### Claim C3 -/

/-- C3, corrected.  `create_graph` accumulates no dropped-edge count and
surfaces no warning; the only conservation that holds is at the level of
the `pd.notna` test: rows with a NaN endpoint plus rows passed to
`add_edge` equal the total, and the built edge count is merely *at most*
the passed-row count (parallel rows collapse), not equal to it. -/
theorem c3_no_dropped_tally (events : List EventRow) (rows : List EdgeRow) :
    rows.countP (fun r => r.source.isSome && r.target.isSome) +
      rows.countP (fun r => !(r.source.isSome && r.target.isSome)) =
      rows.length ∧
    (create_graph events rows).number_of_edges ≤
      rows.countP (fun r => r.source.isSome && r.target.isSome) := by
  constructor
  · exact countP_not_add rows _
  · rw [create_graph_edge_count, ← processedEdges_length]
    calc (validPairs rows).toFinset.card
        ≤ (validPairs rows).length := List.toFinset_card_le _
      _ = (processedEdges rows).length := by
          unfold validPairs
          rw [List.length_map]

/-- C3 as stated is false: with no events and the single edge row
`(1, 2)`, the row's endpoints resolve to no existing node (the claim
counts it as dropped, total 1), yet the edge is built anyway (built
count 1), so dropped + built = 2 ≠ 1 = total edge rows; and no warning
tally exists anywhere in `create_graph`'s result. -/
theorem c3_counterexample :
    [edRow 1 2].countP (fun r => !(resolvesToEvents [] r)) +
      (create_graph [] [edRow 1 2]).number_of_edges ≠
      ([edRow 1 2] : List EdgeRow).length := by
  decide

/-! ### Claim C4 -/

/-- C4, corrected.  `nx.DiGraph` is not a multigraph: two edge rows with
the same ordered pair collapse into a single edge whose attributes are
the *last* row's (for every pair, the stored attributes are exactly
those of the last processed row with that pair), and the reported edge
count counts each distinct ordered pair once. -/
theorem c4_parallel_edges_collapse (events : List EventRow)
    (rows : List EdgeRow) (k : Nat × Nat) :
    (create_graph events rows).edgeAttr? k =
      (((processedEdges rows).filter (fun p => p.1 == k)).getLast?).map
        Prod.snd ∧
    (create_graph events rows).number_of_edges =
      (validPairs rows).toFinset.card :=
  ⟨create_graph_edgeAttr events rows k, create_graph_edge_count events rows⟩

/-- C4 as stated is false: two edge rows with ordered pair `(1, 2)` and
different attributes yield one edge, not two parallel edges; the stored
attributes are the second row's, the first row's are lost, and the edge
count reports 1. -/
theorem c4_counterexample :
    (create_graph [evRow 1, evRow 2]
        [⟨some 1, some 2, "causal", "a"⟩,
         ⟨some 1, some 2, "presence", "b"⟩]).number_of_edges = 1 ∧
    (create_graph [evRow 1, evRow 2]
        [⟨some 1, some 2, "causal", "a"⟩,
         ⟨some 1, some 2, "presence", "b"⟩]).edgeAttr? (1, 2) =
      some ⟨"presence", "b"⟩ := by
  refine ⟨by decide, by decide⟩

/-! ### Longest-path machinery -/

theorem argmax_foldl_ge_init (ps : List (List Nat)) (init : List Nat) :
    init.length ≤
      (ps.foldl (fun best p => if best.length < p.length then p else best)
        init).length := by
  induction ps generalizing init with
  | nil => exact le_refl _
  | cons p rest ih =>
    rw [List.foldl_cons]
    refine le_trans ?_ (ih _)
    by_cases h : init.length < p.length
    · simp only [if_pos h]
      omega
    · simp only [if_neg h]
      exact le_refl _

theorem argmax_foldl_ge_mem {ps : List (List Nat)} {q : List Nat}
    (hq : q ∈ ps) (init : List Nat) :
    q.length ≤
      (ps.foldl (fun best p => if best.length < p.length then p else best)
        init).length := by
  induction ps generalizing init with
  | nil => cases hq
  | cons p rest ih =>
    rw [List.foldl_cons]
    rcases List.mem_cons.mp hq with rfl | hq2
    · refine le_trans ?_ (argmax_foldl_ge_init rest _)
      by_cases h : init.length < q.length
      · simp only [if_pos h]
        exact le_refl _
      · simp only [if_neg h]
        omega
    · exact ih hq2 _

theorem mem_singleton_simplePaths {G : DiGraph} {v : Nat} (hv : v ∈ G.nodeIds) :
    [v] ∈ simplePaths G := by
  unfold simplePaths
  rw [List.mem_filter]
  refine ⟨?_, ?_⟩
  · rw [List.mem_flatMap]
    exact ⟨[v], List.mem_sublists.mpr (List.singleton_sublist.mpr hv),
      by simp [perms, insertsOf]⟩
  · unfold isSimplePath
    simp

theorem dag_longest_path_ne_nil {G : DiGraph} (hn : G.nodeIds ≠ []) :
    dag_longest_path G ≠ [] := by
  obtain ⟨v, vs, hvs⟩ := List.exists_cons_of_ne_nil hn
  have hv : v ∈ G.nodeIds := by
    rw [hvs]
    exact List.mem_cons_self _ _
  have h1 := argmax_foldl_ge_mem (mem_singleton_simplePaths hv) []
  intro h0
  unfold dag_longest_path argmaxLen at h0
  rw [h0] at h1
  simp at h1

/-! ### Claim C5 -/

/-- C5, corrected.  The longest-chain metric is computed only when the
graph is acyclic, and then (graph nonempty) the report carries its
length in events and the explicit node sequence; but on a cyclic graph
the code writes *nothing at all* for this metric (`longest_path` is
`None`, the `if longest_path:` guard fails silently) — there is no
"not applicable" line. -/
theorem c5_longest_chain (events : List EventRow) (rows : List EdgeRow) :
    (is_directed_acyclic_graph (create_graph events rows) = false →
      longestChainLines (create_graph events rows) = []) ∧
    (is_directed_acyclic_graph (create_graph events rows) = true →
      (create_graph events rows).nodes ≠ [] →
      longestChainLines (create_graph events rows) =
        ["Longest causal chain: " ++
           toString (dag_longest_path (create_graph events rows)).length ++
           " events",
         "Path: " ++ String.intercalate " -> "
           ((dag_longest_path (create_graph events rows)).map toString)]) := by
  constructor
  · intro h
    unfold longestChainLines
    rw [h]
    rfl
  · intro h hn
    have hn2 : (create_graph events rows).nodeIds ≠ [] := by
      intro h0
      apply hn
      unfold DiGraph.nodeIds at h0
      exact List.map_eq_nil_iff.mp h0
    have hne := dag_longest_path_ne_nil hn2
    unfold longestChainLines
    rw [h]
    simp only [if_true]
    rw [if_neg (by simpa using hne)]

theorem c5_longest_chain_witness :
    longestChainLines (create_graph [evRow 1, evRow 2] [edRow 1 2]) =
      ["Longest causal chain: 2 events", "Path: 1 -> 2"] ∧
    longestChainLines (create_graph [evRow 3] [edRow 3 3]) = [] :=
  ⟨by
    have h := (c5_longest_chain [evRow 1, evRow 2] [edRow 1 2]).2
      (by decide) (by decide)
    rw [h]
    decide,
   (c5_longest_chain [evRow 3] [edRow 3 3]).1 (by decide)⟩

/-- C5 as stated is false: on the 3-cycle the graph is cyclic and the
report's longest-chain section is empty — a silent omission, not a
visible "not applicable" line. -/
theorem c5_counterexample :
    is_directed_acyclic_graph (create_graph [evRow 1, evRow 2, evRow 3]
      [edRow 1 2, edRow 2 3, edRow 3 1]) = false ∧
    longestChainLines (create_graph [evRow 1, evRow 2, evRow 3]
      [edRow 1 2, edRow 2 3, edRow 3 1]) = [] := by
  refine ⟨by decide, by decide⟩

/-! ### Claim C10 -/

/-- C10, confirmed.  A node carrying a self-loop has nonzero out-degree,
so it is excluded from the dead-end list, and its self-loop is
enumerated as a causal loop of length 1 by the cycle enumeration — even
when the node has no edge to any other node. -/
theorem c10_self_loop (events : List EventRow) (rows : List EdgeRow)
    {v : Nat} (h : (v, v) ∈ (create_graph events rows).edgeKeys) :
    v ∉ dead_ends (create_graph events rows) ∧
    [v] ∈ simple_cycles (create_graph events rows) := by
  constructor
  · intro hmem
    unfold dead_ends at hmem
    have h2 := List.mem_filter.mp hmem
    have hpos : 0 < (create_graph events rows).edgeKeys.countP
        (fun k => k.1 == v) :=
      List.countP_pos_iff.mpr ⟨(v, v), h, by simp⟩
    have hz : (create_graph events rows).out_degree v = 0 := by
      simpa using h2.2
    unfold DiGraph.out_degree at hz
    omega
  · unfold simple_cycles
    rw [List.mem_filter]
    have hv : v ∈ (create_graph events rows).nodeIds :=
      (create_graph_endpoints_mem _ h).1
    refine ⟨?_, ?_⟩
    · rw [List.mem_flatMap]
      exact ⟨[v], List.mem_sublists.mpr (List.singleton_sublist.mpr hv),
        by simp [perms, insertsOf]⟩
    · unfold isCanonCycle
      simp [List.rotate_singleton, h]

theorem c10_self_loop_witness :
    (3, 3) ∈ (create_graph [evRow 3] [edRow 3 3]).edgeKeys ∧
    3 ∉ dead_ends (create_graph [evRow 3] [edRow 3 3]) ∧
    [3] ∈ simple_cycles (create_graph [evRow 3] [edRow 3 3]) :=
  ⟨by decide, c10_self_loop [evRow 3] [edRow 3 3] (by decide)⟩

/-! ### Claim C6 -/

/-- C6, corrected.  The top-5 list is in descending order of betweenness
centrality, but Python's `sorted(..., key=..., reverse=True)` is stable:
nodes with equal betweenness keep the dict insertion order — the order
nodes entered the graph — not ascending identifier order. -/
theorem c6_top5_descending_stable (events : List EventRow)
    (rows : List EdgeRow) :
    List.Pairwise (fun a b : Nat × ℚ => b.2 ≤ a.2)
      (top_central (create_graph events rows)) ∧
    (∀ a b : Nat × ℚ, a.2 = b.2 →
      List.Sublist [a, b] (betweennessItems (create_graph events rows)) →
      List.Sublist [a, b] (sortedByCentrality (create_graph events rows))) ∧
    top_central (create_graph events rows) =
      (sortedByCentrality (create_graph events rows)).take 5 := by
  haveI ht : IsTrans (Nat × ℚ) (fun a b => b.2 ≤ a.2) :=
    ⟨fun _ _ _ h1 h2 => le_trans h2 h1⟩
  haveI hto : IsTotal (Nat × ℚ) (fun a b => b.2 ≤ a.2) :=
    ⟨fun a b => le_total b.2 a.2⟩
  refine ⟨?_, ?_, rfl⟩
  · have hs := List.sorted_insertionSort (fun a b : Nat × ℚ => b.2 ≤ a.2)
      (betweennessItems (create_graph events rows))
    exact List.Pairwise.sublist (List.take_sublist 5 _) hs
  · intro a b hab hsub
    exact List.pair_sublist_insertionSort (by rw [hab]) hsub

theorem c6_top5_witness :
    List.Pairwise (fun a b : Nat × ℚ => b.2 ≤ a.2)
      (top_central (create_graph [evRow 2, evRow 1] [])) ∧
    List.Sublist [((2 : Nat), (0 : ℚ)), ((1 : Nat), (0 : ℚ))]
      (sortedByCentrality (create_graph [evRow 2, evRow 1] [])) :=
  ⟨(c6_top5_descending_stable [evRow 2, evRow 1] []).1,
   (c6_top5_descending_stable [evRow 2, evRow 1] []).2.1 (2, 0) (1, 0) rfl
     (by
       have hb : betweennessItems (create_graph [evRow 2, evRow 1] []) =
           [((2 : Nat), (0 : ℚ)), ((1 : Nat), (0 : ℚ))] := by decide
       rw [hb])⟩

/-- C6 as stated is false: with two tied nodes inserted in the order
2, 1, the reported list is `[2, 1]` — ties keep insertion order, not
identifier-ascending order. -/
theorem c6_counterexample :
    ¬ specTop5Order (top_central (create_graph [evRow 2, evRow 1] [])) ∧
    (top_central (create_graph [evRow 2, evRow 1] [])).map Prod.fst =
      [2, 1] := by
  constructor
  · unfold specTop5Order
    decide
  · decide

/-! ### Claim C8 -/

theorem convertDates_eq_none_iff (events : List EventRow) :
    convertDates events = none ↔ ∃ e ∈ events, toDatetime e.date = none := by
  induction events with
  | nil => simp [convertDates]
  | cons e rest ih =>
    unfold convertDates
    cases hd : toDatetime e.date with
    | none => simp [hd]
    | some dv =>
      cases hc : convertDates rest with
      | none =>
        simp only [hd, hc]
        constructor
        · intro _
          obtain ⟨x, hx, hx2⟩ := ih.mp hc
          exact ⟨x, List.mem_cons_of_mem _ hx, hx2⟩
        · intro _
          trivial
      | some rest2 =>
        simp only [hd, hc]
        constructor
        · intro h
          cases h
        · rintro ⟨x, hx, hx2⟩
          rcases List.mem_cons.mp hx with rfl | hx3
          · rw [hd] at hx2
            cases hx2
          · have h4 : convertDates rest = none := ih.mpr ⟨x, hx3, hx2⟩
            rw [hc] at h4
            cases h4

/-- C8, corrected.  `pd.to_datetime(..., format=...)` raises on the first
unparseable value: the temporal analysis returns an error exactly when
some row's date fails to parse — the bad row is not skipped, no
skipped-row warning exists, and none of the remaining well-formed rows
is processed or reported. -/
theorem c8_malformed_date_aborts (events : List EventRow) :
    (analyze_temporal_patterns events =
        Except.error "time data does not match format %d-%m-%Y" ↔
      ∃ e ∈ events, toDatetime e.date = none) ∧
    (∀ evs2 lines, analyze_temporal_patterns events = Except.ok (evs2, lines) →
      convertDates events = some evs2) := by
  constructor
  · unfold analyze_temporal_patterns
    cases hc : convertDates events with
    | none =>
      constructor
      · intro _
        exact (convertDates_eq_none_iff events).mp hc
      · intro _
        rfl
    | some evs2 =>
      constructor
      · intro h
        exact Except.noConfusion h
      · intro h
        have h2 := (convertDates_eq_none_iff events).mpr h
        rw [hc] at h2
        exact Option.noConfusion h2
  · intro evs2 lines h
    unfold analyze_temporal_patterns at h
    cases hc : convertDates events with
    | none =>
      rw [hc] at h
      cases h
    | some evs3 =>
      rw [hc] at h
      cases h
      rfl

/-- C8 as stated is false: a single malformed date among well-formed
rows aborts the whole temporal analysis with an error; the remaining
rows are not processed and no skipped-row warning is recorded. -/
theorem c8_counterexample :
    analyze_temporal_patterns
        [⟨1, "", DateVal.raw "01-02-2020", false, false, "", ""⟩,
         ⟨2, "", DateVal.raw "garbage", false, false, "", ""⟩,
         ⟨3, "", DateVal.raw "03-04-2021", false, false, "", ""⟩] =
      Except.error "time data does not match format %d-%m-%Y" := rfl

/-! ### Claim C9 -/

theorem convertDates_map_eraseDate {events evs2 : List EventRow}
    (h : convertDates events = some evs2) :
    evs2.map eraseDate = events.map eraseDate := by
  induction events generalizing evs2 with
  | nil =>
    unfold convertDates at h
    cases h
    rfl
  | cons e rest ih =>
    unfold convertDates at h
    cases hd : toDatetime e.date with
    | none =>
      rw [hd] at h
      exact Option.noConfusion h
    | some dv =>
      cases hc : convertDates rest with
      | none =>
        rw [hd, hc] at h
        exact Option.noConfusion h
      | some rest2 =>
        rw [hd, hc] at h
        cases h
        rw [List.map_cons, List.map_cons, ih hc]
        rfl

theorem analyze_worlds_congr {l1 l2 : List EventRow}
    (h : l1.map eraseDate = l2.map eraseDate) :
    analyze_worlds l1 = analyze_worlds l2 := by
  unfold analyze_worlds
  have hw : l1.map (fun e => e.world) = l2.map (fun e => e.world) := by
    have h1 : (l1.map eraseDate).map (fun e => e.world) =
        (l2.map eraseDate).map (fun e => e.world) := by rw [h]
    rw [List.map_map, List.map_map] at h1
    exact h1
  rw [hw]

theorem analyze_characters_congr {l1 l2 : List EventRow}
    (h : l1.map eraseDate = l2.map eraseDate) :
    analyze_character_involvement l1 = analyze_character_involvement l2 := by
  unfold analyze_character_involvement allCharacters
  have hw : l1.map (fun e => e.characters) = l2.map (fun e => e.characters) := by
    have h1 : (l1.map eraseDate).map (fun e => e.characters) =
        (l2.map eraseDate).map (fun e => e.characters) := by rw [h]
    rw [List.map_map, List.map_map] at h1
    exact h1
  rw [hw]

theorem analyze_important_congr {l1 l2 : List EventRow}
    (h : l1.map eraseDate = l2.map eraseDate) :
    analyze_important_events l1 = analyze_important_events l2 := by
  unfold analyze_important_events
  have ht : l1.countP (fun e => e.important_trigger) =
      l2.countP (fun e => e.important_trigger) := by
    have h1 := congrArg (List.countP (fun e : EventRow => e.important_trigger)) h
    rw [List.countP_map, List.countP_map] at h1
    exact h1
  have hd : l1.countP (fun e => e.death) = l2.countP (fun e => e.death) := by
    have h1 := congrArg (List.countP (fun e : EventRow => e.death)) h
    rw [List.countP_map, List.countP_map] at h1
    exact h1
  rw [ht, hd]

/-- C9, corrected.  `analyze_temporal_patterns` is *not* pure: it
reassigns the shared dataframe's `Date` column, replacing each loaded
string by its parsed datetime.  The other analyzers read only non-`Date`
fields, so every reported count is unchanged by the mutation (running
the analyzers in any order yields the same counts) — but the records'
`Date` values do not keep their loaded values. -/
theorem c9_counts_stable_under_mutation {events evs2 : List EventRow}
    {lines : List String}
    (h : analyze_temporal_patterns events = Except.ok (evs2, lines)) :
    analyze_worlds evs2 = analyze_worlds events ∧
    analyze_character_involvement evs2 = analyze_character_involvement events ∧
    analyze_important_events evs2 = analyze_important_events events := by
  have hc : convertDates events = some evs2 := by
    unfold analyze_temporal_patterns at h
    cases hcc : convertDates events with
    | none =>
      rw [hcc] at h
      exact Except.noConfusion h
    | some evs3 =>
      rw [hcc] at h
      cases h
      rfl
  have hm := convertDates_map_eraseDate hc
  exact ⟨analyze_worlds_congr hm, analyze_characters_congr hm,
    analyze_important_congr hm⟩

theorem c9_counts_stable_under_mutation_witness :
    analyze_temporal_patterns
        [⟨1, "x", DateVal.raw "01-02-2020", true, false, "a, b", "Jonas"⟩] =
      Except.ok
        ([⟨1, "x", DateVal.parsed 1 2 2020, true, false, "a, b", "Jonas"⟩],
         ["Year 2020: 1 events"]) ∧
    (analyze_worlds
        [⟨1, "x", DateVal.parsed 1 2 2020, true, false, "a, b", "Jonas"⟩] =
      analyze_worlds
        [⟨1, "x", DateVal.raw "01-02-2020", true, false, "a, b", "Jonas"⟩] ∧
     analyze_character_involvement
        [⟨1, "x", DateVal.parsed 1 2 2020, true, false, "a, b", "Jonas"⟩] =
      analyze_character_involvement
        [⟨1, "x", DateVal.raw "01-02-2020", true, false, "a, b", "Jonas"⟩] ∧
     analyze_important_events
        [⟨1, "x", DateVal.parsed 1 2 2020, true, false, "a, b", "Jonas"⟩] =
      analyze_important_events
        [⟨1, "x", DateVal.raw "01-02-2020", true, false, "a, b", "Jonas"⟩]) :=
  ⟨rfl, c9_counts_stable_under_mutation rfl⟩

/-! ### Sum helpers over lists -/

theorem sum_nonneg_rat {l : List ℚ} (h : ∀ x ∈ l, 0 ≤ x) : 0 ≤ l.sum := by
  induction l with
  | nil => simp
  | cons x tl ih =>
    rw [List.sum_cons]
    have hx := h x (List.mem_cons_self _ _)
    have ht := ih (fun y hy => h y (List.mem_cons_of_mem _ hy))
    linarith

theorem sum_le_length_mul {l : List ℚ} {c : ℚ} (h : ∀ x ∈ l, x ≤ c) :
    l.sum ≤ (l.length : ℚ) * c := by
  induction l with
  | nil => simp
  | cons x tl ih =>
    rw [List.sum_cons, List.length_cons]
    have hx := h x (List.mem_cons_self _ _)
    have ht := ih (fun y hy => h y (List.mem_cons_of_mem _ hy))
    push_cast
    linarith

theorem sum_map_add_nat {α : Type} (l : List α) (f g : α → Nat) :
    (l.map (fun a => f a + g a)).sum = (l.map f).sum + (l.map g).sum := by
  induction l with
  | nil => rfl
  | cons x tl ih =>
    simp only [List.map_cons, List.sum_cons, ih]
    omega

theorem sum_const_nat {α : Type} {l : List α} {f : α → Nat} {c : Nat}
    (h : ∀ a ∈ l, f a = c) : (l.map f).sum = l.length * c := by
  induction l with
  | nil => simp
  | cons x tl ih =>
    simp only [List.map_cons, List.sum_cons, List.length_cons]
    rw [h x (List.mem_cons_self _ _),
      ih (fun y hy => h y (List.mem_cons_of_mem _ hy))]
    ring

theorem sum_map_div_rat {α : Type} (l : List α) (f : α → ℚ) (c : ℚ) :
    (l.map (fun a => f a / c)).sum = (l.map f).sum / c := by
  induction l with
  | nil => simp
  | cons x tl ih =>
    simp only [List.map_cons, List.sum_cons, ih]
    rw [add_div]

theorem sum_map_cast_rat {α : Type} (l : List α) (f : α → Nat) :
    (l.map (fun a => (f a : ℚ))).sum = (((l.map f).sum : ℕ) : ℚ) := by
  induction l with
  | nil => simp
  | cons x tl ih =>
    simp only [List.map_cons, List.sum_cons, ih]
    push_cast
    ring

theorem sum_indicator_count (ns : List Nat) (x : Nat) :
    (ns.map (fun v => if x == v then (1 : ℕ) else 0)).sum = ns.count x := by
  induction ns with
  | nil => simp
  | cons v tl ih =>
    simp only [List.map_cons, List.sum_cons, ih, List.count_cons]
    by_cases hv : x = v
    · subst hv
      simp
      omega
    · have hv2 : ¬(v = x) := fun hh => hv hh.symm
      have h1 : (x == v) = false := by simp [hv]
      have h2 : (v == x) = false := by simp [hv2]
      rw [h1, h2]
      simp

theorem sum_countP_targets {ns : List Nat} {es : List (Nat × Nat)}
    (hnd : ns.Nodup) (hmem : ∀ e ∈ es, e.2 ∈ ns) :
    (ns.map (fun v => es.countP (fun e => e.2 == v))).sum = es.length := by
  induction es with
  | nil => simp
  | cons e tl ih =>
    have hm : ∀ x ∈ tl, x.2 ∈ ns := fun x hx => hmem x (List.mem_cons_of_mem _ hx)
    have hsplit : (ns.map (fun v => (e :: tl).countP (fun e2 => e2.2 == v))).sum =
        (ns.map (fun v => tl.countP (fun e2 => e2.2 == v) +
          if e.2 == v then 1 else 0)).sum := by
      congr 1
      apply List.map_congr_left
      intro v _
      rw [List.countP_cons]
    rw [hsplit, sum_map_add_nat, ih hm, sum_indicator_count,
      List.count_eq_one_of_mem hnd (hmem e (List.mem_cons_self _ _)),
      List.length_cons]

/-! ### Betweenness bounds -/

theorem pairDep_nonneg (G : DiGraph) (s t v : Nat) : 0 ≤ pairDep G s t v := by
  unfold pairDep
  split
  · exact le_refl 0
  · exact div_nonneg (Nat.cast_nonneg _) (Nat.cast_nonneg _)

theorem sigmaThrough_le_sigmaST (G : DiGraph) (s t v : Nat) :
    sigmaThrough G s t v ≤ sigmaST G s t := by
  unfold sigmaThrough sigmaST
  cases hd : G.dist? s t with
  | none => exact le_refl 0
  | some d =>
    apply List.countP_mono_left
    intro w _ hw
    simp only [Bool.and_eq_true] at hw
    exact hw.1

theorem pairDep_le_one (G : DiGraph) (s t v : Nat) : pairDep G s t v ≤ 1 := by
  unfold pairDep
  split
  · exact zero_le_one
  · rename_i h0
    rw [div_le_one (by exact_mod_cast Nat.pos_of_ne_zero h0)]
    exact_mod_cast sigmaThrough_le_sigmaST G s t v

theorem nodeIds_length (G : DiGraph) : G.nodeIds.length = G.number_of_nodes := by
  unfold DiGraph.nodeIds DiGraph.number_of_nodes
  rw [List.length_map]

theorem edgeKeys_length (G : DiGraph) : G.edgeKeys.length = G.number_of_edges := by
  unfold DiGraph.edgeKeys DiGraph.number_of_edges
  rw [List.length_map]

theorem otherPairs_length {G : DiGraph} {v : Nat} (hv : v ∈ G.nodeIds)
    (_hnd : G.nodeIds.Nodup) :
    (otherPairs G v).length =
      (G.number_of_nodes - 1) * (G.number_of_nodes - 2) := by
  unfold otherPairs
  rw [List.length_flatMap]
  have h1 : (G.nodeIds.erase v).length = G.number_of_nodes - 1 := by
    rw [List.length_erase_of_mem hv, nodeIds_length]
  have hstep : ∀ s ∈ G.nodeIds.erase v,
      (List.length ∘ fun s2 =>
        List.map (fun t => (s2, t)) ((G.nodeIds.erase v).erase s2)) s =
        G.number_of_nodes - 2 := by
    intro s hs
    show (List.map (fun t => (s, t)) ((G.nodeIds.erase v).erase s)).length = _
    rw [List.length_map, List.length_erase_of_mem hs, h1]
    omega
  rw [sum_const_nat hstep, h1]

theorem betweennessRaw_nonneg (G : DiGraph) (v : Nat) :
    0 ≤ betweennessRaw G v := by
  apply sum_nonneg_rat
  intro x hx
  obtain ⟨p, _, rfl⟩ := List.mem_map.mp hx
  exact pairDep_nonneg G p.1 p.2 v

theorem betweennessRaw_le {G : DiGraph} {v : Nat} (hv : v ∈ G.nodeIds)
    (hnd : G.nodeIds.Nodup) :
    betweennessRaw G v ≤
      (((G.number_of_nodes - 1) * (G.number_of_nodes - 2) : ℕ) : ℚ) := by
  unfold betweennessRaw
  have hb : ∀ x ∈ (otherPairs G v).map (fun p => pairDep G p.1 p.2 v),
      x ≤ (1 : ℚ) := by
    intro x hx
    obtain ⟨p, _, rfl⟩ := List.mem_map.mp hx
    exact pairDep_le_one G p.1 p.2 v
  have h1 := sum_le_length_mul hb
  rw [List.length_map, otherPairs_length hv hnd] at h1
  simpa using h1

theorem betweenness_centrality_nonneg (G : DiGraph) (v : Nat) :
    0 ≤ betweenness_centrality G v := by
  unfold betweenness_centrality
  split
  · rename_i h
    have h2 : (2 : ℚ) < (G.number_of_nodes : ℚ) := by exact_mod_cast h
    apply div_nonneg (betweennessRaw_nonneg G v)
    nlinarith
  · exact betweennessRaw_nonneg G v

theorem betweenness_centrality_le_one {G : DiGraph} {v : Nat}
    (hv : v ∈ G.nodeIds) (hnd : G.nodeIds.Nodup) :
    betweenness_centrality G v ≤ 1 := by
  have hraw := betweennessRaw_le hv hnd
  unfold betweenness_centrality
  split
  · rename_i h
    have h2 : (2 : ℚ) < (G.number_of_nodes : ℚ) := by exact_mod_cast h
    rw [div_le_one (by nlinarith)]
    refine le_trans hraw (le_of_eq ?_)
    rw [Nat.cast_mul, Nat.cast_sub (by omega : 1 ≤ G.number_of_nodes),
      Nat.cast_sub (by omega : 2 ≤ G.number_of_nodes)]
    push_cast
    ring
  · rename_i h
    have hz : G.number_of_nodes - 2 = 0 := by omega
    have h0 : ((G.number_of_nodes - 1) * (G.number_of_nodes - 2) : ℕ) = 0 := by
      rw [hz, Nat.mul_zero]
    rw [h0] at hraw
    simp only [Nat.cast_zero] at hraw
    linarith

theorem sum_in_degree_centrality {G : DiGraph} (hnd : G.nodeIds.Nodup)
    (hmem : ∀ k ∈ G.edgeKeys, k.2 ∈ G.nodeIds)
    (h2 : 2 ≤ G.number_of_nodes) :
    (G.nodeIds.map (fun v => in_degree_centrality G v)).sum =
      (G.number_of_edges : ℚ) / ((G.number_of_nodes : ℚ) - 1) := by
  have hform : G.nodeIds.map (fun v => in_degree_centrality G v) =
      G.nodeIds.map
        (fun v => (G.in_degree v : ℚ) / ((G.number_of_nodes : ℚ) - 1)) := by
    apply List.map_congr_left
    intro v _
    unfold in_degree_centrality
    rw [if_neg (by omega)]
  rw [hform, sum_map_div_rat, sum_map_cast_rat]
  congr 1
  have hsum : (G.nodeIds.map (fun v => G.in_degree v)).sum =
      G.edgeKeys.length := by
    unfold DiGraph.in_degree
    exact sum_countP_targets hnd hmem
  rw [hsum, edgeKeys_length]

/-! ### Claim C7 -/

/-- C7, confirmed.  For every built graph with at least two nodes, each
node's betweenness centrality lies in `[0, 1]`, and the in-degree
centralities over all nodes sum exactly (over `ℚ`, modelling the real
arithmetic) to `(edge count) / (n - 1)`. -/
theorem c7_centrality_bounds (events : List EventRow) (rows : List EdgeRow)
    (h : 2 ≤ (create_graph events rows).number_of_nodes) :
    (∀ v ∈ (create_graph events rows).nodeIds,
      0 ≤ betweenness_centrality (create_graph events rows) v ∧
      betweenness_centrality (create_graph events rows) v ≤ 1) ∧
    ((create_graph events rows).nodeIds.map
        (fun v => in_degree_centrality (create_graph events rows) v)).sum =
      ((create_graph events rows).number_of_edges : ℚ) /
        (((create_graph events rows).number_of_nodes : ℚ) - 1) := by
  have hnd := create_graph_nodeIds_nodup events rows
  constructor
  · intro v hv
    exact ⟨betweenness_centrality_nonneg _ v,
      betweenness_centrality_le_one hv hnd⟩
  · exact sum_in_degree_centrality hnd
      (fun k hk => (create_graph_endpoints_mem k hk).2) h

theorem c7_centrality_bounds_witness :
    2 ≤ (create_graph [evRow 1, evRow 2] [edRow 1 2]).number_of_nodes ∧
    (0 ≤ betweenness_centrality (create_graph [evRow 1, evRow 2] [edRow 1 2]) 1 ∧
     betweenness_centrality (create_graph [evRow 1, evRow 2] [edRow 1 2]) 1 ≤ 1) ∧
    ((create_graph [evRow 1, evRow 2] [edRow 1 2]).nodeIds.map
        (fun v => in_degree_centrality
          (create_graph [evRow 1, evRow 2] [edRow 1 2]) v)).sum =
      ((create_graph [evRow 1, evRow 2] [edRow 1 2]).number_of_edges : ℚ) /
        (((create_graph [evRow 1, evRow 2] [edRow 1 2]).number_of_nodes : ℚ) - 1) :=
  ⟨by decide,
   (c7_centrality_bounds [evRow 1, evRow 2] [edRow 1 2] (by decide)).1 1
     (by decide),
   (c7_centrality_bounds [evRow 1, evRow 2] [edRow 1 2] (by decide)).2⟩

/-- C9 as stated is false: after the temporal analyzer runs, the
record's `Date` field no longer holds its loaded value — the raw string
has been replaced in place by the parsed datetime. -/
theorem c9_counterexample :
    analyze_temporal_patterns
        [⟨1, "", DateVal.raw "01-02-2020", false, false, "", ""⟩] =
      Except.ok ([⟨1, "", DateVal.parsed 1 2 2020, false, false, "", ""⟩],
        ["Year 2020: 1 events"]) ∧
    (⟨1, "", DateVal.parsed 1 2 2020, false, false, "", ""⟩ : EventRow) ≠
      ⟨1, "", DateVal.raw "01-02-2020", false, false, "", ""⟩ :=
  ⟨rfl, by decide⟩

end DarkViz
